import Mathlib

/-!
Shallow embedding of the Ethereum deposit tracker (src/main.py together with
the read-side script src/read_db.py), and proofs of the specified properties.

main.py scans the chain for transactions addressed to the beacon deposit
contract: `track_deposits` polls the latest height every 15 seconds, processes
each new block in ascending order through `process_new_blocks`, and for every
transaction whose destination matches the configured contract address builds a
deposit dict, inserts it into the sqlite `deposit` table and sends a Telegram
message.  External effects (RPC, sqlite, Telegram) are modelled as explicit
inputs: the latest-height call and the per-height block fetch return
`Except Err _`, and the two side-effect channels are failure oracles.  A raised
Python exception is modelled by the `Except.error` constructor carrying the
store/notification state at the moment it was raised, since rows committed
before the exception stay committed (`con.commit()` runs per insert).
-/

namespace EthDeposit

/-- Failure kinds raised by the external collaborators: the RPC endpoint
(`ConnectivityError` / `NotFoundError`) and the sqlite store
(`PersistenceError`). -/
inductive Err where
  | connectivity
  | notFound
  | persistence
deriving DecidableEq

/-- A transaction as returned by `w3.eth.get_block(n, full_transactions=True)`.
`toAddr` models `tx['to']` and is `none` for contract-creation transactions; `input` is the call-data
hex string (with its `0x` prefix) as a character sequence; `hash` stands for
`tx['hash'].hex()`. -/
structure Tx where
  toAddr : Option String
  gas : Nat
  gasPrice : Nat
  hash : String
  input : List Char
deriving DecidableEq

/-- A block with full transaction bodies, in the chain's native order. -/
structure Block where
  number : Int
  timestamp : Nat
  transactions : List Tx
deriving DecidableEq

/-- A row of the sqlite `deposit` table (main.py lines 35-41). -/
structure DepositRecord where
  blockNumber : Int
  blockTimestamp : Nat
  fee : Nat
  hash : String
  pubkey : List Char
deriving DecidableEq

/-- The externally visible state touched while processing deposits: the rows of
the `deposit` table in insertion order, and the Telegram send attempts in the
order they were made. -/
structure PState where
  db : List DepositRecord
  notified : List DepositRecord
deriving DecidableEq

/-- An oracle deciding whether an external side effect fails when handling a
given record (the sqlite insert, or the Telegram delivery). -/
def FailureOracle : Type := DepositRecord → Bool

/-- The always-succeeding oracle. -/
def noFail : FailureOracle := fun _ => false

/-- main.py line 77: `w3.eth.get_block('latest')['number'] - 1000`. -/
def get_last_processed_block (latest : Int) : Int :=
  latest - 1000

/-- Python `str.lower()` on an (ASCII, hex-address) string, mapping
`Char.toLower` over the string's characters.  (Stated directly over the
character data so that it evaluates by kernel reduction; `String.toLower`
recurses on byte positions, which the kernel cannot unfold.) -/
def pyLower (s : String) : String := ⟨s.data.map Char.toLower⟩

/-- main.py line 104: `tx['to'] and tx['to'].lower() == DEPOSIT_CONTRACT_ADDRESS.lower()`.
Python truthiness: a `None` destination (and likewise an empty string) is falsy,
so such a transaction never matches. -/
def matchesTx (target : String) (tx : Tx) : Bool :=
  match tx.toAddr with
  | none => false
  | some dest => !(dest == "") && (pyLower dest == pyLower target)

/-- main.py lines 114-120: the deposit dict built by `process_deposit`.
Fields in order: `blockNumber`, `blockTimestamp`, `fee = tx['gas'] * tx['gasPrice']`,
`hash = tx['hash'].hex()`, `pubkey = tx['input'][2:98]` (a Python slice, which
truncates silently when the string is short). -/
def mk_deposit (block : Block) (tx : Tx) : DepositRecord :=
  ⟨block.number, block.timestamp, tx.gas * tx.gasPrice, tx.hash,
    (tx.input.drop 2).take 96⟩

/-- main.py lines 107-122: build the record, `save_deposit` it (the sqlite
`execute` may raise `PersistenceError`, in which case nothing was inserted and
the exception propagates), then `send_alert`.  The Telegram call is wrapped in
try/except (lines 167-171): a delivery failure is logged and swallowed, so the
attempt is always recorded and never alters the rows or the control flow. -/
def process_deposit (persistFails notifyFails : FailureOracle) (tx : Tx)
    (block : Block) (s : PState) : Except (Err × PState) PState :=
  let d := mk_deposit block tx
  if persistFails d then
    .error (.persistence, s)
  else
    .ok ⟨s.db ++ [d], s.notified ++ [d]⟩

/-- main.py lines 103-105: the inner loop of `process_new_blocks` over a
block's transactions, in the block's native order. -/
def process_txs (persistFails notifyFails : FailureOracle) (target : String)
    (block : Block) : List Tx → PState → Except (Err × PState) PState
  | [], s => .ok s
  | tx :: rest, s =>
    if matchesTx target tx then
      match process_deposit persistFails notifyFails tx block s with
      | .error e => .error e
      | .ok s2 => process_txs persistFails notifyFails target block rest s2
    else
      process_txs persistFails notifyFails target block rest s

/-- Python `range(start, stop + 1)` over integers: the ascending list
`[start, start + 1, ..., stop]`, empty when `stop < start`. -/
def blockRange (start stop : Int) : List Int :=
  (List.range (stop + 1 - start).toNat).map (fun (i : Nat) => start + (i : Int))

/-- The outer loop of `process_new_blocks`, folded over a list of heights:
fetch each block (the RPC call may raise), then scan its transactions. -/
def process_heights (fetch : Int → Except Err Block)
    (persistFails notifyFails : FailureOracle) (target : String) :
    List Int → PState → Except (Err × PState) PState
  | [], s => .ok s
  | h :: rest, s =>
    match fetch h with
    | .error e => .error (e, s)
    | .ok block =>
      match process_txs persistFails notifyFails target block
          block.transactions s with
      | .error e => .error e
      | .ok s2 => process_heights fetch persistFails notifyFails target rest s2

/-- main.py lines 95-105: `process_new_blocks(start_block, end_block)` iterates
`range(start_block, end_block + 1)`. -/
def process_new_blocks (fetch : Int → Except Err Block)
    (persistFails notifyFails : FailureOracle) (target : String)
    (start_block end_block : Int) (s : PState) : Except (Err × PState) PState :=
  process_heights fetch persistFails notifyFails target
    (blockRange start_block end_block) s

/-- One iteration of the `while True` body of `track_deposits` (main.py lines
84-93).  `latestRes` is the outcome of `w3.eth.get_block('latest')`; any
exception raised anywhere in the body is caught by the except-branch, which
only logs and sleeps, leaving the cursor unchanged (rows already committed by
`save_deposit` stay committed). -/
def track_step (latestRes : Except Err Int) (fetch : Int → Except Err Block)
    (persistFails notifyFails : FailureOracle) (target : String)
    (cursor : Int) (s : PState) : Int × PState :=
  match latestRes with
  | .error _ => (cursor, s)
  | .ok latest =>
    if cursor < latest then
      match process_new_blocks fetch persistFails notifyFails target
          (cursor + 1) latest s with
      | .error (_, s2) => (cursor, s2)
      | .ok s2 => (latest, s2)
    else
      (cursor, s)

/-- What one loop iteration sees of the chain: the latest-height call and the
per-height block fetch. -/
structure ChainView where
  latestRes : Except Err Int
  fetch : Int → Except Err Block

/-- `track_deposits` run for finitely many loop iterations, iteration `i`
observing `envs[i]`. -/
def track_run (persistFails notifyFails : FailureOracle) (target : String) :
    List ChainView → Int × PState → Int × PState
  | [], cs => cs
  | env :: rest, (cursor, s) =>
    track_run persistFails notifyFails target rest
      (track_step env.latestRes env.fetch persistFails notifyFails target
        cursor s)

/-- read_db.py: `SELECT * FROM deposit` returns every row in insertion order. -/
def queryAll (db : List DepositRecord) : List DepositRecord := db

/-- The records one block contributes, in the block's native transaction
order: exactly what the two nested loops of `process_new_blocks` persist for
that block when nothing fails. -/
def block_deposits (target : String) (block : Block) : List DepositRecord :=
  (block.transactions.filter (matchesTx target)).map (mk_deposit block)

/-- Spec-side reading of the pubkey extraction for claim C4, following the
spec's words: the fixed 96-character (48-byte) range of the input payload
immediately following the 4-byte method selector, i.e. after the 2-character
`0x` prefix plus the 8 hex characters of the selector. -/
def specPubkeyAfterSelector (input : List Char) : List Char :=
  (input.drop 10).take 96

/-! ### Helper lemmas about the embedding -/

/-- With a never-failing store, scanning a block's transactions commits and
notifies exactly the filtered transactions, decoded in native order. -/
theorem process_txs_noFail (nf : FailureOracle) (target : String)
    (block : Block) :
    ∀ (txs : List Tx) (s : PState),
      process_txs noFail nf target block txs s =
        .ok ⟨s.db ++ (txs.filter (matchesTx target)).map (mk_deposit block),
             s.notified ++ (txs.filter (matchesTx target)).map
               (mk_deposit block)⟩ := by
  intro txs
  induction txs with
  | nil => intro s; simp [process_txs]
  | cons tx rest ih =>
    intro s
    by_cases h : matchesTx target tx
    · simp [process_txs, h, process_deposit, noFail, ih, List.filter_cons]
    · simp [process_txs, h, ih, List.filter_cons]

/-- With a never-failing store and a chain `B` behind the fetch, processing a
list of heights succeeds and appends each height's deposits in list order. -/
theorem process_heights_ok (B : Int → Block) (fetch : Int → Except Err Block)
    (nf : FailureOracle) (target : String) :
    ∀ (hs : List Int) (s : PState), (∀ k ∈ hs, fetch k = .ok (B k)) →
      process_heights fetch noFail nf target hs s =
        .ok ⟨s.db ++ hs.flatMap (fun k => block_deposits target (B k)),
             s.notified ++ hs.flatMap (fun k => block_deposits target (B k))⟩ := by
  intro hs
  induction hs with
  | nil => intro s _; simp [process_heights]
  | cons h rest ih =>
    intro s hf
    have hh : fetch h = .ok (B h) := hf h (by simp)
    simp only [process_heights, hh,
      process_txs_noFail nf target (B h) (B h).transactions s]
    rw [ih _ (fun k hk => hf k (by simp [hk]))]
    simp [block_deposits, List.append_assoc]

/-- Membership in a Python-style inclusive integer range. -/
theorem mem_blockRange (start stop k : Int) :
    k ∈ blockRange start stop ↔ start ≤ k ∧ k ≤ stop := by
  simp only [blockRange, List.mem_map, List.mem_range]
  constructor
  · rintro ⟨i, hi, rfl⟩
    omega
  · intro hk
    exact ⟨(k - start).toNat, by omega, by omega⟩

/-- A Python-style inclusive integer range is strictly ascending (hence each
height occurs exactly once). -/
theorem blockRange_pairwise (start stop : Int) :
    List.Pairwise (fun a b => a < b) (blockRange start stop) := by
  unfold blockRange
  exact List.Pairwise.map _ (fun a b hab => by omega) (List.pairwise_lt_range _)

/-- Every record a block contributes carries that block's number. -/
theorem block_deposits_blockNumber (target : String) (block : Block)
    (r : DepositRecord) (hr : r ∈ block_deposits target block) :
    r.blockNumber = block.number := by
  simp only [block_deposits, List.mem_map, List.mem_filter] at hr
  obtain ⟨tx, _, rfl⟩ := hr
  rfl

/-- The hashes a block contributes form a sublist of that block's transaction
hashes (in native order). -/
theorem block_deposits_hashes (target : String) (block : Block) :
    ((block_deposits target block).map (fun r => r.hash)).Sublist
      (block.transactions.map (fun tx => tx.hash)) := by
  unfold block_deposits
  rw [List.map_map]
  exact (List.filter_sublist _).map _

/-- `flatMap` is monotone under pointwise sublists. -/
theorem flatMap_sublist {α β : Type} (f g : α → List β) :
    ∀ (l : List α), (∀ a ∈ l, (f a).Sublist (g a)) →
      (l.flatMap f).Sublist (l.flatMap g) := by
  intro l
  induction l with
  | nil => intro _; simp
  | cons a rest ih =>
    intro h
    simp only [List.flatMap_cons]
    exact (h a (by simp)).append (ih (fun b hb => h b (by simp [hb])))

/-- A list all of whose pairs satisfy `R` is pairwise `R`. -/
theorem pairwise_of_forall_mem {α : Type} {R : α → α → Prop} :
    ∀ (l : List α), (∀ a ∈ l, ∀ b ∈ l, R a b) → List.Pairwise R l := by
  intro l
  induction l with
  | nil => intro _; exact List.Pairwise.nil
  | cons a rest ih =>
    intro h
    refine List.Pairwise.cons ?_ (ih (fun x hx y hy => h x (by simp [hx]) y (by simp [hy])))
    intro b hb
    exact h a (by simp) b (by simp [hb])

/-- One loop iteration never moves the cursor backwards. -/
theorem track_step_mono (latestRes : Except Err Int)
    (fetch : Int → Except Err Block) (pf nf : FailureOracle) (target : String)
    (cursor : Int) (s : PState) :
    cursor ≤ (track_step latestRes fetch pf nf target cursor s).1 := by
  unfold track_step
  cases latestRes with
  | error e => exact le_refl _
  | ok latest =>
    by_cases h : cursor < latest
    · simp only [h, if_true]
      cases hp : process_new_blocks fetch pf nf target (cursor + 1) latest s with
      | error e =>
        obtain ⟨e1, s2⟩ := e
        exact le_refl _
      | ok s2 => exact le_of_lt h
    · simp only [h, if_false]
      exact le_refl _

/-- Any finite run of the loop never moves the cursor backwards. -/
theorem track_run_mono (pf nf : FailureOracle) (target : String) :
    ∀ (envs : List ChainView) (cursor : Int) (s : PState),
      cursor ≤ (track_run pf nf target envs (cursor, s)).1 := by
  intro envs
  induction envs with
  | nil => intro cursor s; exact le_refl _
  | cons env rest ih =>
    intro cursor s
    have h1 := track_step_mono env.latestRes env.fetch pf nf target cursor s
    rcases hstep : track_step env.latestRes env.fetch pf nf target cursor s
      with ⟨c2, s2⟩
    have h2 := ih c2 s2
    rw [hstep] at h1
    calc cursor ≤ c2 := h1
      _ ≤ (track_run pf nf target rest (c2, s2)).1 := h2
      _ = (track_run pf nf target (env :: rest) (cursor, s)).1 := by
          rw [track_run, hstep]

/-- The notification failure oracle is never consulted for control flow:
`process_deposit` ignores it entirely (the try/except swallows delivery
failures). -/
theorem process_deposit_nf_irrel (pf nf nf2 : FailureOracle) (tx : Tx)
    (block : Block) (s : PState) :
    process_deposit pf nf tx block s = process_deposit pf nf2 tx block s := rfl

/-- Scanning a block's transactions is unaffected by the notification oracle. -/
theorem process_txs_nf_irrel (pf nf nf2 : FailureOracle) (target : String)
    (block : Block) :
    ∀ (txs : List Tx) (s : PState),
      process_txs pf nf target block txs s =
        process_txs pf nf2 target block txs s := by
  intro txs
  induction txs with
  | nil => intro s; rfl
  | cons tx rest ih =>
    intro s
    by_cases h : matchesTx target tx
    · rw [process_txs, process_txs]
      simp only [h, if_true]
      rw [process_deposit_nf_irrel pf nf nf2 tx block s]
      cases process_deposit pf nf2 tx block s with
      | error e => rfl
      | ok s2 => exact ih s2
    · rw [process_txs, process_txs]
      simp only [h, if_false]
      exact ih s

/-- Processing a list of heights is unaffected by the notification oracle. -/
theorem process_heights_nf_irrel (fetch : Int → Except Err Block)
    (pf nf nf2 : FailureOracle) (target : String) :
    ∀ (hs : List Int) (s : PState),
      process_heights fetch pf nf target hs s =
        process_heights fetch pf nf2 target hs s := by
  intro hs
  induction hs with
  | nil => intro s; rfl
  | cons h rest ih =>
    intro s
    rw [process_heights, process_heights]
    cases fetch h with
    | error e => rfl
    | ok block =>
      dsimp only
      rw [process_txs_nf_irrel pf nf nf2 target block block.transactions s]
      cases process_txs pf nf2 target block block.transactions s with
      | error e => rfl
      | ok s2 => exact ih s2

/-- One whole loop iteration — cursor update included — is unaffected by the
notification oracle. -/
theorem track_step_nf_irrel (latestRes : Except Err Int)
    (fetch : Int → Except Err Block) (pf nf nf2 : FailureOracle)
    (target : String) (cursor : Int) (s : PState) :
    track_step latestRes fetch pf nf target cursor s =
      track_step latestRes fetch pf nf2 target cursor s := by
  unfold track_step
  cases latestRes with
  | error e => rfl
  | ok latest =>
    by_cases h : cursor < latest
    · simp only [h, if_true]
      unfold process_new_blocks
      rw [process_heights_nf_irrel fetch pf nf nf2 target
        (blockRange (cursor + 1) latest) s]
    · simp only [h, if_false]

/-! ### The claims -/

/-- C1: the scan cursor is initialized at startup to the chain's latest height
minus 1000; it never decreases across loop iterations; after a successful
PROCESSING phase over the range `(cursor, latest]` it equals `latest`; and when
any exception is raised during polling or processing it is left unchanged. -/
theorem C1_cursor_lifecycle (pf nf : FailureOracle)
    (fetch : Int → Except Err Block) (target : String) (cursor latest : Int)
    (s : PState) :
    get_last_processed_block latest = latest - 1000 ∧
    (∀ envs : List ChainView,
      cursor ≤ (track_run pf nf target envs (cursor, s)).1) ∧
    (∀ s2, cursor < latest →
      process_new_blocks fetch pf nf target (cursor + 1) latest s = .ok s2 →
      track_step (.ok latest) fetch pf nf target cursor s = (latest, s2)) ∧
    (∀ e, track_step (.error e) fetch pf nf target cursor s = (cursor, s)) ∧
    (∀ e s2,
      process_new_blocks fetch pf nf target (cursor + 1) latest s =
        .error (e, s2) →
      (track_step (.ok latest) fetch pf nf target cursor s).1 = cursor) := by
  refine ⟨rfl, fun envs => track_run_mono pf nf target envs cursor s,
    ?_, ?_, ?_⟩
  · intro s2 hlt hok
    unfold track_step
    simp only [hlt, if_true, hok]
  · intro e
    rfl
  · intro e s2 herr
    unfold track_step
    by_cases hlt : cursor < latest
    · simp only [hlt, if_true, herr]
    · simp only [hlt, if_false]

/-- Concrete fetch for the C1 witness: every height resolves to an empty
block. -/
def cw1fetch : Int → Except Err Block := fun _ => .ok ⟨0, 0, []⟩

/-- C1 witness: at cursor 0 and latest height 2, with an all-empty chain, one
successful iteration advances the cursor to 2. -/
theorem C1_witness :
    (0 : Int) < 2 ∧
      track_step (.ok 2) cw1fetch noFail noFail "0xdead" 0 ⟨[], []⟩ =
        (2, ⟨[], []⟩) :=
  ⟨by decide,
    (C1_cursor_lifecycle noFail noFail cw1fetch "0xdead" 0 2 ⟨[], []⟩).2.2.1
      ⟨[], []⟩ (by decide) rfl⟩

/-- C2: when the latest height exceeds the cursor, the processed heights are
exactly the strictly ascending enumeration of `(cursor, latest]` — nonempty,
no height repeated or skipped — within each block the matched transactions
form an in-order sublist of the block's native transaction list, and with a
live chain behind the fetch the whole range commits exactly those deposits,
blocks in ascending order and transactions in block order. -/
theorem C2_range_order (cursor latest : Int) (hlt : cursor < latest)
    (B : Int → Block) (fetch : Int → Except Err Block) (nf : FailureOracle)
    (target : String) (s : PState)
    (hfetch : ∀ k ∈ blockRange (cursor + 1) latest, fetch k = .ok (B k)) :
    blockRange (cursor + 1) latest ≠ [] ∧
    List.Pairwise (fun a b => a < b) (blockRange (cursor + 1) latest) ∧
    (∀ k, k ∈ blockRange (cursor + 1) latest ↔ cursor < k ∧ k ≤ latest) ∧
    (∀ block : Block,
      (block.transactions.filter (matchesTx target)).Sublist
        block.transactions) ∧
    process_new_blocks fetch noFail nf target (cursor + 1) latest s =
      .ok ⟨s.db ++ (blockRange (cursor + 1) latest).flatMap
              (fun k => block_deposits target (B k)),
           s.notified ++ (blockRange (cursor + 1) latest).flatMap
              (fun k => block_deposits target (B k))⟩ := by
  refine ⟨?_, blockRange_pairwise _ _, ?_, ?_, ?_⟩
  · have hm : latest ∈ blockRange (cursor + 1) latest := by
      rw [mem_blockRange]
      omega
    exact List.ne_nil_of_mem hm
  · intro k
    rw [mem_blockRange]
    omega
  · intro block
    exact List.filter_sublist _
  · exact process_heights_ok B fetch nf target _ s hfetch

/-- Chain for the C2 witness: block `k` has number `k` and no transactions. -/
def cw2B : Int → Block := fun k => ⟨k, 0, []⟩

/-- Fetch for the C2 witness. -/
def cw2fetch : Int → Except Err Block := fun k => .ok (cw2B k)

/-- C2 witness: for cursor 0 and latest 2 the processed range is nonempty. -/
theorem C2_witness :
    (0 : Int) < 2 ∧ blockRange ((0 : Int) + 1) 2 ≠ [] :=
  ⟨by decide,
    (C2_range_order 0 2 (by decide) cw2B cw2fetch noFail "0xdead" ⟨[], []⟩
      (fun _ _ => rfl)).1⟩

/-- C3: the decoded fee is the exact integer product of the transaction's gas
and gasPrice fields; in particular for gas 21000 and gasPrice 50 the fee is
1050000. -/
theorem C3_fee (tx : Tx) (block : Block) :
    (mk_deposit block tx).fee = tx.gas * tx.gasPrice ∧
    (tx.gas = 21000 → tx.gasPrice = 50 →
      (mk_deposit block tx).fee = 1050000) := by
  refine ⟨rfl, ?_⟩
  intro h1 h2
  simp [mk_deposit, h1, h2]

/-- Transaction for the C3 witness. -/
def cw3Tx : Tx := ⟨some "0xdead", 21000, 50, "0xc3", []⟩

/-- Block for the C3 witness. -/
def cw3Block : Block := ⟨3, 30, [cw3Tx]⟩

/-- C3 witness: the 21000 × 50 example evaluates to 1050000. -/
theorem C3_witness :
    cw3Tx.gas = 21000 ∧ cw3Tx.gasPrice = 50 ∧
      (mk_deposit cw3Block cw3Tx).fee = 1050000 :=
  ⟨rfl, rfl, (C3_fee cw3Tx cw3Block).2 rfl rfl⟩

/-- Input for the C4 counterexample: the `0x` prefix, an 8-hex-character
(4-byte) method selector of `a`s, then 96 payload characters of `b`s. -/
def cx4Input : List Char := "0xaaaaaaaa".toList ++ List.replicate 96 'b'

/-- Transaction for the C4 counterexample. -/
def cx4Tx : Tx := ⟨some "0xdead", 21000, 50, "0xc4", cx4Input⟩

/-- Block for the C4 counterexample. -/
def cx4Block : Block := ⟨4, 40, [cx4Tx]⟩

/-- C4 counterexample: the decoded pubkey is not the byte range immediately
following the 4-byte method selector — the slice `tx['input'][2:98]` starts
right after the `0x` prefix, so it still contains the selector. -/
theorem C4_counterexample :
    (mk_deposit cx4Block cx4Tx).pubkey ≠
      specPubkeyAfterSelector cx4Tx.input := by
  decide

/-- C4 (amended): the decoded pubkey is the 96-character range of the input
payload starting immediately after the 2-character `0x` prefix — it therefore
still begins with the 8 hex characters of the 4-byte method selector — and
whenever the payload is at least 98 characters long it has the fixed
96-hex-character (48-byte) length expected for a validator pubkey. -/
theorem C4_pubkey_slice (tx : Tx) (block : Block)
    (hlen : 98 ≤ tx.input.length) :
    (mk_deposit block tx).pubkey = (tx.input.drop 2).take 96 ∧
    (mk_deposit block tx).pubkey.length = 96 := by
  refine ⟨rfl, ?_⟩
  simp only [mk_deposit, List.length_take, List.length_drop]
  omega

/-- C4 witness: on the concrete 106-character input the decoded pubkey has
length 96. -/
theorem C4_witness :
    98 ≤ cx4Tx.input.length ∧
      (mk_deposit cx4Block cx4Tx).pubkey.length = 96 :=
  ⟨by decide, (C4_pubkey_slice cx4Tx cx4Block (by decide)).2⟩

/-- Transaction for C5: a matching deposit call whose input payload `0x1234`
is far shorter than the 98-character extraction range. -/
def cx5Tx : Tx := ⟨some "0xdead", 21000, 50, "0xc5", "0x1234".toList⟩

/-- Block for C5. -/
def cx5Block : Block := ⟨5, 50, [cx5Tx]⟩

/-- C5: the code evaluated at the failing input.  The claim demands a surfaced
`MalformedInputError` for a payload shorter than the extraction range, but the
code's slice `tx['input'][2:98]` truncates silently: the record is built with
a 4-character pubkey, persisted, and notified — no error of any kind exists on
this path in main.py. -/
theorem C5_short_input_truncates :
    (mk_deposit cx5Block cx5Tx).pubkey = "1234".toList ∧
    (mk_deposit cx5Block cx5Tx).pubkey.length = 4 ∧
    process_deposit noFail noFail cx5Tx cx5Block ⟨[], []⟩ =
      .ok ⟨[mk_deposit cx5Block cx5Tx], [mk_deposit cx5Block cx5Tx]⟩ :=
  ⟨by decide, by decide, rfl⟩

/-- C6: a transaction with no destination never matches, and a transaction
with a (nonempty) destination matches exactly when that destination equals the
configured target address under case-insensitive comparison. -/
theorem C6_filter (target dest : String) (hne : dest ≠ "") :
    (∀ tx : Tx, tx.toAddr = none → matchesTx target tx = false) ∧
    (∀ tx : Tx, tx.toAddr = some dest →
      (matchesTx target tx = true ↔ pyLower dest = pyLower target)) := by
  constructor
  · intro tx h
    simp [matchesTx, h]
  · intro tx h
    simp [matchesTx, h, hne]

/-- Transaction for the C6 witness: mixed-case destination. -/
def cw6Tx : Tx := ⟨some "0xDEAD", 1, 1, "0xc6", []⟩

/-- C6 witness: a mixed-case destination matches the lower-case target. -/
theorem C6_witness :
    ("0xDEAD" : String) ≠ "" ∧ matchesTx "0xdead" cw6Tx = true :=
  ⟨by decide,
    ((C6_filter "0xdead" "0xDEAD" (by decide)).2 cw6Tx rfl).mpr (by decide)⟩

/-- C7: a notification delivery failure neither removes nor rolls back the
persisted record, does not halt the loop, and does not affect cursor
advancement: whatever the notification oracle says, `process_deposit` returns
successfully with the record appended and the attempt made, the record shows
up in a subsequent `queryAll`, and a whole loop iteration — cursor update
included — is identical under any two notification oracles. -/
theorem C7_notification_best_effort (nf nf2 pf : FailureOracle) (tx : Tx)
    (block : Block) (s : PState) (fetch : Int → Except Err Block)
    (target : String) (cursor : Int) :
    process_deposit noFail nf tx block s =
      .ok ⟨s.db ++ [mk_deposit block tx],
           s.notified ++ [mk_deposit block tx]⟩ ∧
    mk_deposit block tx ∈ queryAll (s.db ++ [mk_deposit block tx]) ∧
    (∀ latestRes, track_step latestRes fetch pf nf target cursor s =
      track_step latestRes fetch pf nf2 target cursor s) := by
  refine ⟨rfl, ?_, ?_⟩
  · simp [queryAll]
  · intro latestRes
    exact track_step_nf_irrel latestRes fetch pf nf nf2 target cursor s

/-- A store oracle that always fails, for the C8 scenario. -/
def cx8pf : FailureOracle := fun _ => true

/-- Transaction for the C8 scenario. -/
def cx8Tx : Tx := ⟨some "0xdead", 3, 4, "0xc8", "0x".toList⟩

/-- Block for the C8 scenario. -/
def cx8Block : Block := ⟨8, 80, [cx8Tx]⟩

/-- C8 counterexample: when `save_deposit` raises a `PersistenceError`, the
per-deposit handling aborts at once — the error propagates out of
`process_deposit` carrying a state whose notification log is still empty, so
the notification for that same deposit was never attempted. -/
theorem C8_counterexample :
    process_deposit cx8pf noFail cx8Tx cx8Block ⟨[], []⟩ =
      .error (.persistence, ⟨[], []⟩) := rfl

/-- C8 (amended): a persistence failure aborts the per-deposit handling before
the notification step — `process_deposit` propagates the `PersistenceError`
with the state unchanged (no row inserted, no notification attempt recorded),
and when the transaction matches the target it likewise aborts the enclosing
scan of the block's transaction list. -/
theorem C8_persistence_aborts (pf nf : FailureOracle) (tx : Tx)
    (block : Block) (s : PState)
    (hfail : pf (mk_deposit block tx) = true) :
    process_deposit pf nf tx block s = .error (.persistence, s) ∧
    (∀ target rest, matchesTx target tx = true →
      process_txs pf nf target block (tx :: rest) s =
        .error (.persistence, s)) := by
  constructor
  · simp [process_deposit, hfail]
  · intro target rest hm
    simp [process_txs, hm, process_deposit, hfail]

/-- C8 witness: with the always-failing store the abort happens on the
concrete deposit of the C8 scenario. -/
theorem C8_witness :
    cx8pf (mk_deposit cx8Block cx8Tx) = true ∧
      process_deposit cx8pf noFail cx8Tx cx8Block ⟨[], []⟩ =
        .error (.persistence, ⟨[], []⟩) :=
  ⟨rfl, (C8_persistence_aborts cx8pf noFail cx8Tx cx8Block ⟨[], []⟩ rfl).1⟩

/-- C10: decoding is total over the input payload — for any input string,
including one shorter than 98 characters, building the deposit record never
fails: the pubkey is the (possibly shorter) slice `input[2:98]`, and the
record is persisted and notified like any other. -/
theorem C10_decode_total (tx : Tx) (block : Block) (nf : FailureOracle)
    (s : PState) :
    (mk_deposit block tx).pubkey = (tx.input.drop 2).take 96 ∧
    (mk_deposit block tx).pubkey.length = min 96 (tx.input.length - 2) ∧
    process_deposit noFail nf tx block s =
      .ok ⟨s.db ++ [mk_deposit block tx],
           s.notified ++ [mk_deposit block tx]⟩ := by
  refine ⟨rfl, ?_, rfl⟩
  simp only [mk_deposit, List.length_take, List.length_drop]

/-- Target address for the C9 scenario. -/
def cx9Target : String := "0xdead"

/-- The matching transaction in block 1 of the C9 chain. -/
def cx9Tx1 : Tx := ⟨some "0xdead", 21000, 50, "0xa1", "0x".toList⟩

/-- The matching transaction in block 2 of the C9 chain. -/
def cx9Tx2 : Tx := ⟨some "0xdead", 21000, 50, "0xa2", "0x".toList⟩

/-- Block 1 of the C9 chain. -/
def cx9Block1 : Block := ⟨1, 10, [cx9Tx1]⟩

/-- Block 2 of the C9 chain. -/
def cx9Block2 : Block := ⟨2, 20, [cx9Tx2]⟩

/-- Block 3 of the C9 chain (no transactions). -/
def cx9Block3 : Block := ⟨3, 30, []⟩

/-- First iteration's chain view: latest is 3, but fetching block 3 raises. -/
def cx9fetchFail : Int → Except Err Block := fun k =>
  if k = 1 then .ok cx9Block1
  else if k = 2 then .ok cx9Block2
  else .error .connectivity

/-- Second iteration's chain view: the whole range is available. -/
def cx9fetchOk : Int → Except Err Block := fun k =>
  if k = 1 then .ok cx9Block1
  else if k = 2 then .ok cx9Block2
  else if k = 3 then .ok cx9Block3
  else .error .notFound

/-- Two loop iterations from cursor 0: the first fails at block 3 after
committing the deposits of blocks 1 and 2, leaving the cursor at 0; the retry
reprocesses blocks 1-3 from the unadvanced cursor. -/
def cx9Run : Int × PState :=
  track_run noFail noFail cx9Target
    [⟨.ok 3, cx9fetchFail⟩, ⟨.ok 3, cx9fetchOk⟩] (0, ⟨[], []⟩)

/-- C9 counterexample: after a mid-range failure and a retry, the store holds
the deposits of blocks 1 and 2 twice — the hash column is not unique and the
blockNumber column is not monotonically non-decreasing in insertion order. -/
theorem C9_counterexample :
    ¬ ((cx9Run.2.db.map (fun r => r.hash)).Nodup ∧
       List.Pairwise (fun a b => a ≤ b)
         (cx9Run.2.db.map (fun r => r.blockNumber))) := by
  decide

/-- C9 (amended): in a failure-free pass the invariants do hold.  If every
height of the range is served by a consistent chain (block `k` has number `k`)
whose transaction hashes are globally distinct and distinct from the hashes
already stored, and the store only holds records from blocks below the range,
then processing succeeds, appends exactly the range's deposits in order, and
the resulting rows have pairwise-distinct hashes and non-decreasing
blockNumbers; a mid-range failure with retry re-inserts already-persisted
records and violates both invariants (see the counterexample). -/
theorem C9_invariants_without_retry (B : Int → Block)
    (fetch : Int → Except Err Block) (nf : FailureOracle) (target : String)
    (start_block end_block : Int) (s : PState)
    (hfetch : ∀ k ∈ blockRange start_block end_block, fetch k = .ok (B k))
    (hnum : ∀ k, (B k).number = k)
    (hmono : List.Pairwise (fun a b => a ≤ b)
      (s.db.map (fun r => r.blockNumber)))
    (hbound : ∀ r ∈ s.db, r.blockNumber < start_block)
    (hhash : (s.db.map (fun r => r.hash) ++
        (blockRange start_block end_block).flatMap
          (fun k => (B k).transactions.map (fun tx => tx.hash))).Nodup) :
    process_new_blocks fetch noFail nf target start_block end_block s =
      .ok ⟨s.db ++ (blockRange start_block end_block).flatMap
              (fun k => block_deposits target (B k)),
           s.notified ++ (blockRange start_block end_block).flatMap
              (fun k => block_deposits target (B k))⟩ ∧
    List.Pairwise (fun a b => a ≤ b)
      ((s.db ++ (blockRange start_block end_block).flatMap
          (fun k => block_deposits target (B k))).map
        (fun r => r.blockNumber)) ∧
    ((s.db ++ (blockRange start_block end_block).flatMap
        (fun k => block_deposits target (B k))).map
      (fun r => r.hash)).Nodup := by
  refine ⟨process_heights_ok B fetch nf target _ s hfetch, ?_, ?_⟩
  · rw [List.map_append, List.pairwise_append]
    refine ⟨hmono, ?_, ?_⟩
    · rw [List.map_flatMap, List.pairwise_flatMap]
      constructor
      · intro k _
        refine pairwise_of_forall_mem _ ?_
        intro a ha b hb
        simp only [List.mem_map] at ha hb
        obtain ⟨ra, hra, rfl⟩ := ha
        obtain ⟨rb, hrb, rfl⟩ := hb
        rw [block_deposits_blockNumber target (B k) ra hra,
          block_deposits_blockNumber target (B k) rb hrb]
      · refine List.Pairwise.imp ?_
          (blockRange_pairwise start_block end_block)
        intro k1 k2 hk12 x hx y hy
        simp only [List.mem_map] at hx hy
        obtain ⟨rx, hrx, rfl⟩ := hx
        obtain ⟨ry, hry, rfl⟩ := hy
        rw [block_deposits_blockNumber target (B k1) rx hrx,
          block_deposits_blockNumber target (B k2) ry hry, hnum, hnum]
        exact le_of_lt hk12
    · intro a ha b hb
      simp only [List.mem_map] at ha
      obtain ⟨ra, hra, rfl⟩ := ha
      simp only [List.map_flatMap, List.mem_flatMap, List.mem_map] at hb
      obtain ⟨k, hk, rb, hrb, rfl⟩ := hb
      rw [block_deposits_blockNumber target (B k) rb hrb, hnum]
      have h1 : ra.blockNumber < start_block := hbound ra hra
      have h2 : start_block ≤ k := ((mem_blockRange _ _ _).mp hk).1
      omega
  · have hsub : ((s.db ++ (blockRange start_block end_block).flatMap
        (fun k => block_deposits target (B k))).map
          (fun r => r.hash)).Sublist
        (s.db.map (fun r => r.hash) ++
          (blockRange start_block end_block).flatMap
            (fun k => (B k).transactions.map (fun tx => tx.hash))) := by
      rw [List.map_append]
      refine List.Sublist.append (List.Sublist.refl _) ?_
      rw [List.map_flatMap]
      exact flatMap_sublist _ _ _
        (fun k _ => block_deposits_hashes target (B k))
    exact List.Nodup.sublist hsub hhash

/-- Chain for the C9 witness: block `k` has number `k` and no transactions. -/
def cw9B : Int → Block := fun k => ⟨k, 0, []⟩

/-- Fetch for the C9 witness. -/
def cw9fetch : Int → Except Err Block := fun k => .ok (cw9B k)

/-- C9 witness: a failure-free pass over blocks 1-2 of an empty chain leaves
the hash column duplicate-free. -/
theorem C9_witness :
    ((([] : List DepositRecord) ++ (blockRange 1 2).flatMap
        (fun k => block_deposits "0xdead" (cw9B k))).map
      (fun r => r.hash)).Nodup :=
  (C9_invariants_without_retry cw9B cw9fetch noFail "0xdead" 1 2 ⟨[], []⟩
    (fun _ _ => rfl) (fun _ => rfl) (by simp) (by simp) (by decide)).2.2

end EthDeposit
